import Mathlib

/-!
Verification of the framebuffer text writer
(`kernel_with_bootloader/src/writer.rs`).

The writer is embedded shallowly: the framebuffer is a `List Nat` of bytes,
cursor coordinates are `Nat`, and every Rust operation that can panic
(out-of-bounds slice indexing, `usize` subtraction underflow, slicing the
3-byte color array past its end) is modelled as returning `none`.  A
returned `some` state therefore certifies that every memory access of the
modelled operation stayed in bounds.
-/

set_option maxHeartbeats 1000000

namespace FBW

/-- The geometry descriptor supplied by the bootloader
(`bootloader_api::info::FrameBufferInfo`): width/height in pixels, stride in
pixels per scanline, bytes per pixel. -/
structure FrameBufferInfo where
  width : Nat
  height : Nat
  stride : Nat
  bytes_per_pixel : Nat
deriving DecidableEq

/-- An RGB color, `[u8; 3]` in the source. -/
structure Rgb where
  r : Nat
  g : Nat
  b : Nat
deriving DecidableEq

/-- `const LINE_SPACING: usize = 2` -/
def LINE_SPACING : Nat := 2

/-- `const LETTER_SPACING: usize = 0` -/
def LETTER_SPACING : Nat := 0

/-- `const BORDER_PADDING: usize = 1` -/
def BORDER_PADDING : Nat := 1

/-- `const COLOR_BLUE: [u8; 3] = [255, 0, 0]` (the accent color). -/
def COLOR_BLUE : Rgb := ⟨255, 0, 0⟩

/-- `const COLOR_WHITE: [u8; 3] = [255, 255, 255]` (the normal color). -/
def COLOR_WHITE : Rgb := ⟨255, 255, 255⟩

/-- A rasterized character: a row-major intensity matrix plus its rendered
pixel width (`noto_sans_mono_bitmap::RasterizedChar`). -/
structure RasterizedChar where
  raster : List (List Nat)
  width : Nat
deriving DecidableEq

/-- Modelled from the spec: the font constants module
(`constants::font_constants`, not present under `src/`) fixes a glyph cell
width `CHAR_RASTER_WIDTH` and height `CHAR_RASTER_HEIGHT`, and the external
rasterizer provides a total lookup `get_char_raster` (a raster for the
character, with a guaranteed-present backup glyph as fallback).  These are
carried as parameters alongside the geometry descriptor. -/
structure Config where
  info : FrameBufferInfo
  rasterHeight : Nat
  rasterWidth : Nat
  getCharRaster : Char → RasterizedChar

/-- One text line's pixel height, `CHAR_RASTER_HEIGHT.val() + LINE_SPACING`. -/
def lineHeight (cfg : Config) : Nat := cfg.rasterHeight + LINE_SPACING

/-- `stride * line_height * bytes_per_pixel`, the byte length of one text
line, as computed in `scroll_screen`. -/
def bytesPerLine (cfg : Config) : Nat :=
  cfg.info.stride * lineHeight cfg * cfg.info.bytes_per_pixel

/-- The mutable state of `FrameBufferWriter`: framebuffer bytes, cursor
position and current color. -/
structure Writer where
  framebuffer : List Nat
  x_pos : Nat
  y_pos : Nat
  current_color : Rgb
deriving DecidableEq

/-- `carriage_return`: resets `x_pos` to the border padding. -/
def carriageReturn (s : Writer) : Writer := { s with x_pos := BORDER_PADDING }

/-- The buffer transformation of `scroll_screen`:
`copy_within(bytes_per_line.., 0)` followed by zero-filling the final
`bytes_per_line` bytes.  `copy_within` panics when `bytes_per_line`
exceeds the buffer length, so that case is `none`. -/
def scrollBuffer (cfg : Config) (fb : List Nat) : Option (List Nat) :=
  if bytesPerLine cfg ≤ fb.length then
    some (fb.drop (bytesPerLine cfg) ++ List.replicate (bytesPerLine cfg) 0)
  else none

/-- `scroll_screen`: shifts the framebuffer up by one text line, clears the
last line, and decrements `y_pos` by one line height.  The unsigned
subtraction `y_pos -= line_height` underflows when `y_pos < line_height`,
modelled as `none`. -/
def scrollScreen (cfg : Config) (s : Writer) : Option Writer :=
  match scrollBuffer cfg s.framebuffer with
  | none => none
  | some fb =>
    if lineHeight cfg ≤ s.y_pos then
      some { s with framebuffer := fb, y_pos := s.y_pos - lineHeight cfg }
    else none

/-- `newline`: advances `y_pos` by one line height, scrolls on vertical
overflow, then does a carriage return. -/
def newline (cfg : Config) (s : Writer) : Option Writer :=
  let s1 : Writer := { s with y_pos := s.y_pos + lineHeight cfg }
  if cfg.info.height ≤ s1.y_pos then
    (scrollScreen cfg s1).map carriageReturn
  else some (carriageReturn s1)

/-- `clear`: resets the cursor to the padding origin and zero-fills the
whole framebuffer. -/
def clear (s : Writer) : Writer :=
  { s with x_pos := BORDER_PADDING, y_pos := BORDER_PADDING,
           framebuffer := List.replicate s.framebuffer.length 0 }

/-- `FrameBufferWriter::new`: builds the writer at the padding origin with
the normal color and immediately clears it. -/
def FrameBufferWriter.new (fb : List Nat) : Writer :=
  clear { framebuffer := fb, x_pos := BORDER_PADDING, y_pos := BORDER_PADDING,
          current_color := COLOR_WHITE }

/-- Overwrites `bytes.length` bytes of `fb` starting at `off` (the
in-bounds effect of `copy_from_slice` into `fb[off..off+len]`). -/
def writeBytes (fb : List Nat) (off : Nat) (bytes : List Nat) : List Nat :=
  fb.take off ++ bytes ++ fb.drop (off + bytes.length)

/-- One channel of the intensity-scaled color:
`(channel as u16 * intensity as u16 / 255) as u8`. -/
def scaleChannel (c intensity : Nat) : Nat := c * intensity / 255 % 256

/-- The 3-byte scaled color array computed in `write_pixel`. -/
def pixelColor (col : Rgb) (intensity : Nat) : List Nat :=
  [scaleChannel col.r intensity, scaleChannel col.g intensity,
   scaleChannel col.b intensity]

/-- `write_pixel`: writes the scaled color, packed to `bytes_per_pixel`
bytes, at byte offset `(y*stride + x) * bytes_per_pixel`.  The slice write
panics when the destination range leaves the framebuffer, and slicing the
3-byte color array as `color[..bytes_per_pixel]` panics when
`bytes_per_pixel > 3`; both are modelled as `none`. -/
def writePixel (cfg : Config) (s : Writer) (x y intensity : Nat) : Option Writer :=
  let pixel_offset := y * cfg.info.stride + x
  let bpp := cfg.info.bytes_per_pixel
  let byte_offset := pixel_offset * bpp
  if byte_offset + bpp ≤ s.framebuffer.length ∧ bpp ≤ 3 then
    let fb := writeBytes s.framebuffer byte_offset
      ((pixelColor s.current_color intensity).take bpp)
    some { s with framebuffer := fb }
  else none

/-- The inner loop of `write_rendered_char` over one raster row: every
pixel with nonzero intensity is written at `(x_pos + col, y_pos + row)`. -/
def blitRow (cfg : Config) (y : Nat) : Nat → List Nat → Writer → Option Writer
  | _, [], s => some s
  | x, byte :: rest, s =>
    if 0 < byte then
      match writePixel cfg s (s.x_pos + x) (s.y_pos + y) byte with
      | none => none
      | some s1 => blitRow cfg y (x + 1) rest s1
    else blitRow cfg y (x + 1) rest s

/-- The outer loop of `write_rendered_char` over the raster rows. -/
def blitRows (cfg : Config) : Nat → List (List Nat) → Writer → Option Writer
  | _, [], s => some s
  | y, row :: rest, s =>
    match blitRow cfg y 0 row s with
    | none => none
    | some s1 => blitRows cfg (y + 1) rest s1

/-- `write_rendered_char`: blits the raster, then advances `x_pos` by the
rendered width plus the letter spacing. -/
def writeRenderedChar (cfg : Config) (s : Writer) (rc : RasterizedChar) : Option Writer :=
  (blitRows cfg 0 rc.raster s).map
    (fun s1 => { s1 with x_pos := s1.x_pos + rc.width + LETTER_SPACING })

/-- The first pre-blit check of `write_char`: if
`x_pos + CHAR_RASTER_WIDTH >= width`, a newline is forced. -/
def afterXCheck (cfg : Config) (s : Writer) : Option Writer :=
  if cfg.info.width ≤ s.x_pos + cfg.rasterWidth then newline cfg s else some s

/-- The second pre-blit check of `write_char`: if
`y_pos + CHAR_RASTER_HEIGHT + BORDER_PADDING >= height`, a scroll is
forced. -/
def afterYCheck (cfg : Config) (s : Writer) : Option Writer :=
  if cfg.info.height ≤ s.y_pos + cfg.rasterHeight + BORDER_PADDING then
    scrollScreen cfg s
  else some s

/-- The default (printable-character) arm of `write_char`: both pre-blit
checks, then the glyph blit. -/
def writeCharDefault (cfg : Config) (s : Writer) (c : Char) : Option Writer :=
  match afterXCheck cfg s with
  | none => none
  | some s1 =>
    match afterYCheck cfg s1 with
    | none => none
    | some s2 => writeRenderedChar cfg s2 (cfg.getCharRaster c)

/-- `write_char`: dispatches on `\n`, `\r`, `\t` (four spaces through the
normal path) and otherwise renders the glyph. -/
def writeChar (cfg : Config) (s : Writer) (c : Char) : Option Writer :=
  if c = '\n' then newline cfg s
  else if c = '\r' then some (carriageReturn s)
  else if c = '\t' then
    match writeCharDefault cfg s ' ' with
    | none => none
    | some s1 =>
      match writeCharDefault cfg s1 ' ' with
      | none => none
      | some s2 =>
        match writeCharDefault cfg s2 ' ' with
        | none => none
        | some s3 => writeCharDefault cfg s3 ' '
  else writeCharDefault cfg s c

/-- `print`: the escape interpreter.  A backslash consumes the next
character: `c` switches to the accent color, `r` resets to the normal
color, anything else renders a literal backslash and drops the consumed
character; a trailing backslash is dropped. -/
def printChars (cfg : Config) : Writer → List Char → Option Writer
  | s, [] => some s
  | s, c :: rest =>
    if c = '\\' then
      match rest with
      | [] => some s
      | next :: rest2 =>
        if next = 'c' then
          printChars cfg { s with current_color := COLOR_BLUE } rest2
        else if next = 'r' then
          printChars cfg { s with current_color := COLOR_WHITE } rest2
        else
          match writeChar cfg s '\\' with
          | none => none
          | some s1 => printChars cfg s1 rest2
    else
      match writeChar cfg s c with
      | none => none
      | some s1 => printChars cfg s1 rest

/-- `Write::write_str` (the path taken by the exported `print!` macro):
feeds every character directly to `write_char`. -/
def writeStr (cfg : Config) : Writer → List Char → Option Writer
  | s, [] => some s
  | s, c :: rest =>
    match writeChar cfg s c with
    | none => none
    | some s1 => writeStr cfg s1 rest

/-- States reachable through the public interface: construction, `print`
and `clear`. -/
inductive Reachable (cfg : Config) : Writer → Prop
  | init (fb : List Nat) : Reachable cfg (FrameBufferWriter.new fb)
  | print_step (s s1 : Writer) (t : List Char) :
      Reachable cfg s → printChars cfg s t = some s1 → Reachable cfg s1
  | clear_step (s : Writer) : Reachable cfg s → Reachable cfg (clear s)

/-- The cursor invariant maintained by the layout manager: `y_pos` is the
padding origin plus a whole number of line heights, and stays below the
height. -/
def WriterInv (cfg : Config) (s : Writer) : Prop :=
  (∃ k, s.y_pos = BORDER_PADDING + k * lineHeight cfg) ∧
    s.y_pos < cfg.info.height

lemma writeBytes_length (fb : List Nat) (off : Nat) (bytes : List Nat)
    (h : off + bytes.length ≤ fb.length) :
    (writeBytes fb off bytes).length = fb.length := by
  simp only [writeBytes, List.length_append, List.length_take, List.length_drop]
  omega

lemma writeBytes_getElem (fb : List Nat) (off : Nat) (bytes : List Nat)
    (h : off + bytes.length ≤ fb.length) (i : Nat) :
    (writeBytes fb off bytes)[i]? =
      if off ≤ i ∧ i < off + bytes.length then bytes[i - off]? else fb[i]? := by
  have htk : (fb.take off).length = off := by
    simp only [List.length_take]
    omega
  rw [writeBytes, List.append_assoc, List.getElem?_append, htk]
  by_cases h1 : i < off
  · rw [if_pos h1, List.getElem?_take, if_pos h1, if_neg (by omega)]
  · rw [if_neg h1, List.getElem?_append]
    by_cases h2 : i - off < bytes.length
    · rw [if_pos h2, if_pos (by omega)]
    · rw [if_neg h2, List.getElem?_drop, if_neg (by omega)]
      congr 1
      omega

lemma writePixel_some_elim (cfg : Config) (s : Writer) (x y i : Nat) (s1 : Writer)
    (hw : writePixel cfg s x y i = some s1) :
    (y * cfg.info.stride + x) * cfg.info.bytes_per_pixel + cfg.info.bytes_per_pixel
        ≤ s.framebuffer.length ∧
    cfg.info.bytes_per_pixel ≤ 3 ∧
    s1.x_pos = s.x_pos ∧ s1.y_pos = s.y_pos ∧
    s1.current_color = s.current_color ∧
    s1.framebuffer =
      writeBytes s.framebuffer ((y * cfg.info.stride + x) * cfg.info.bytes_per_pixel)
        ((pixelColor s.current_color i).take cfg.info.bytes_per_pixel) := by
  unfold writePixel at hw
  dsimp only at hw
  split at hw
  · rename_i hcond
    injection hw with h
    subst h
    exact ⟨hcond.1, hcond.2, rfl, rfl, rfl, rfl⟩
  · exact absurd hw (by simp)

lemma writePixel_some_intro (cfg : Config) (s : Writer) (x y i : Nat)
    (h : (y * cfg.info.stride + x) * cfg.info.bytes_per_pixel + cfg.info.bytes_per_pixel
        ≤ s.framebuffer.length)
    (hbpp : cfg.info.bytes_per_pixel ≤ 3) :
    ∃ s1, writePixel cfg s x y i = some s1 := by
  unfold writePixel
  simp only [h, hbpp, and_self, if_true]
  exact ⟨_, rfl⟩

lemma pixelColor_take_length (col : Rgb) (i bpp : Nat) (hbpp : bpp ≤ 3) :
    ((pixelColor col i).take bpp).length = bpp := by
  simp only [pixelColor, List.length_take, List.length_cons, List.length_nil]
  omega

lemma writePixel_fields (cfg : Config) (s : Writer) (x y i : Nat) (s1 : Writer)
    (hw : writePixel cfg s x y i = some s1) :
    s1.x_pos = s.x_pos ∧ s1.y_pos = s.y_pos ∧
    s1.current_color = s.current_color ∧
    s1.framebuffer.length = s.framebuffer.length := by
  obtain ⟨hin, hbpp, h1, h2, h3, h4⟩ := writePixel_some_elim cfg s x y i s1 hw
  refine ⟨h1, h2, h3, ?_⟩
  rw [h4]
  apply writeBytes_length
  rw [pixelColor_take_length _ _ _ hbpp]
  exact hin

lemma blitRow_fields (cfg : Config) (y : Nat) :
    ∀ (row : List Nat) (x : Nat) (s s1 : Writer),
    blitRow cfg y x row s = some s1 →
    s1.x_pos = s.x_pos ∧ s1.y_pos = s.y_pos ∧
    s1.current_color = s.current_color ∧
    s1.framebuffer.length = s.framebuffer.length := by
  intro row
  induction row with
  | nil =>
    intro x s s1 hw
    simp only [blitRow] at hw
    injection hw with h
    subst h
    exact ⟨rfl, rfl, rfl, rfl⟩
  | cons b rest ih =>
    intro x s s1 hw
    simp only [blitRow] at hw
    split at hw
    · cases hp : writePixel cfg s (s.x_pos + x) (s.y_pos + y) b with
      | none => rw [hp] at hw; exact absurd hw (by simp)
      | some s2 =>
        rw [hp] at hw
        obtain ⟨h1, h2, h3, h4⟩ := ih (x + 1) s2 s1 hw
        obtain ⟨g1, g2, g3, g4⟩ := writePixel_fields cfg s _ _ b s2 hp
        exact ⟨h1.trans g1, h2.trans g2, h3.trans g3, h4.trans g4⟩
    · exact ih (x + 1) s s1 hw

lemma blitRows_fields (cfg : Config) :
    ∀ (rows : List (List Nat)) (y : Nat) (s s1 : Writer),
    blitRows cfg y rows s = some s1 →
    s1.x_pos = s.x_pos ∧ s1.y_pos = s.y_pos ∧
    s1.current_color = s.current_color ∧
    s1.framebuffer.length = s.framebuffer.length := by
  intro rows
  induction rows with
  | nil =>
    intro y s s1 hw
    simp only [blitRows] at hw
    injection hw with h
    subst h
    exact ⟨rfl, rfl, rfl, rfl⟩
  | cons row rest ih =>
    intro y s s1 hw
    simp only [blitRows] at hw
    cases hp : blitRow cfg y 0 row s with
    | none => rw [hp] at hw; exact absurd hw (by simp)
    | some s2 =>
      rw [hp] at hw
      obtain ⟨h1, h2, h3, h4⟩ := ih (y + 1) s2 s1 hw
      obtain ⟨g1, g2, g3, g4⟩ := blitRow_fields cfg y row 0 s s2 hp
      exact ⟨h1.trans g1, h2.trans g2, h3.trans g3, h4.trans g4⟩

lemma scrollBuffer_some_intro (cfg : Config) (fb : List Nat)
    (h : bytesPerLine cfg ≤ fb.length) :
    scrollBuffer cfg fb =
      some (fb.drop (bytesPerLine cfg) ++ List.replicate (bytesPerLine cfg) 0) := by
  rw [scrollBuffer, if_pos h]

lemma scrollBuffer_some_elim (cfg : Config) (fb fb2 : List Nat)
    (hw : scrollBuffer cfg fb = some fb2) :
    bytesPerLine cfg ≤ fb.length ∧
    fb2 = fb.drop (bytesPerLine cfg) ++ List.replicate (bytesPerLine cfg) 0 := by
  unfold scrollBuffer at hw
  split at hw
  · rename_i hbl
    injection hw with h2
    exact ⟨hbl, h2.symm⟩
  · exact absurd hw (by simp)

lemma scrollScreen_some_elim (cfg : Config) (s : Writer) (s1 : Writer)
    (hw : scrollScreen cfg s = some s1) :
    bytesPerLine cfg ≤ s.framebuffer.length ∧
    lineHeight cfg ≤ s.y_pos ∧
    s1.framebuffer = s.framebuffer.drop (bytesPerLine cfg)
        ++ List.replicate (bytesPerLine cfg) 0 ∧
    s1.x_pos = s.x_pos ∧
    s1.y_pos = s.y_pos - lineHeight cfg ∧
    s1.current_color = s.current_color := by
  unfold scrollScreen at hw
  cases hsb : scrollBuffer cfg s.framebuffer with
  | none => rw [hsb] at hw; exact absurd hw (by simp)
  | some fb =>
    rw [hsb] at hw
    obtain ⟨hbl, rfl⟩ := scrollBuffer_some_elim cfg _ _ hsb
    dsimp only at hw
    split at hw
    · rename_i hlh
      injection hw with h2
      subst h2
      exact ⟨hbl, hlh, rfl, rfl, rfl, rfl⟩
    · exact absurd hw (by simp)

lemma scrollScreen_some_intro (cfg : Config) (s : Writer)
    (h : bytesPerLine cfg ≤ s.framebuffer.length)
    (h2 : lineHeight cfg ≤ s.y_pos) :
    scrollScreen cfg s =
      some { s with
        framebuffer := s.framebuffer.drop (bytesPerLine cfg)
          ++ List.replicate (bytesPerLine cfg) 0,
        y_pos := s.y_pos - lineHeight cfg } := by
  rw [scrollScreen, scrollBuffer_some_intro cfg _ h]
  dsimp only
  rw [if_pos h2]

lemma scrollScreen_length (cfg : Config) (s : Writer) (s1 : Writer)
    (hw : scrollScreen cfg s = some s1) :
    s1.framebuffer.length = s.framebuffer.length := by
  obtain ⟨hbl, _, hfb, _, _, _⟩ := scrollScreen_some_elim cfg s s1 hw
  rw [hfb]
  simp only [List.length_append, List.length_drop, List.length_replicate]
  omega

lemma newline_some_elim (cfg : Config) (s : Writer) (s1 : Writer)
    (hw : newline cfg s = some s1) :
    s1.x_pos = BORDER_PADDING ∧
    s1.current_color = s.current_color ∧
    s1.framebuffer.length = s.framebuffer.length ∧
    ((s1.y_pos = s.y_pos + lineHeight cfg ∧
        s.y_pos + lineHeight cfg < cfg.info.height ∧
        s1.framebuffer = s.framebuffer) ∨
      (s1.y_pos = s.y_pos ∧ cfg.info.height ≤ s.y_pos + lineHeight cfg)) := by
  unfold newline at hw
  dsimp only at hw
  split at hw
  · rename_i hge
    cases hs : scrollScreen cfg { s with y_pos := s.y_pos + lineHeight cfg } with
    | none => rw [hs] at hw; exact absurd hw (by simp)
    | some s2 =>
      rw [hs] at hw
      injection hw with h2
      subst h2
      obtain ⟨_, _, _, hx, hy, hc⟩ := scrollScreen_some_elim cfg _ s2 hs
      have hlen := scrollScreen_length cfg _ s2 hs
      dsimp only at hy hc hlen hge
      refine ⟨rfl, ?_, ?_, Or.inr ⟨?_, hge⟩⟩
      · simpa [carriageReturn] using hc
      · simpa [carriageReturn] using hlen
      · simp only [carriageReturn]
        omega
  · rename_i hlt
    injection hw with h2
    subst h2
    refine ⟨rfl, rfl, rfl, Or.inl ⟨rfl, ?_, rfl⟩⟩
    omega

lemma newline_some_intro (cfg : Config) (s : Writer)
    (h : bytesPerLine cfg ≤ s.framebuffer.length) :
    ∃ s1, newline cfg s = some s1 := by
  unfold newline
  dsimp only
  split
  · rw [scrollScreen_some_intro cfg _ (by exact h) (by dsimp only; omega)]
    exact ⟨_, rfl⟩
  · exact ⟨_, rfl⟩

lemma writeRenderedChar_fields (cfg : Config) (s : Writer) (rc : RasterizedChar)
    (s1 : Writer) (hw : writeRenderedChar cfg s rc = some s1) :
    s1.x_pos = s.x_pos + rc.width + LETTER_SPACING ∧ s1.y_pos = s.y_pos ∧
    s1.current_color = s.current_color ∧
    s1.framebuffer.length = s.framebuffer.length := by
  unfold writeRenderedChar at hw
  cases hp : blitRows cfg 0 rc.raster s with
  | none => rw [hp] at hw; exact absurd hw (by simp)
  | some s2 =>
    rw [hp] at hw
    obtain ⟨h1, h2, h3, h4⟩ := blitRows_fields cfg rc.raster 0 s s2 hp
    injection hw with h
    subst h
    exact ⟨by simp [h1], h2, h3, h4⟩

lemma writeChar_newline_eq (cfg : Config) (s : Writer) :
    writeChar cfg s '\n' = newline cfg s := by
  simp [writeChar]

lemma writeChar_cr_eq (cfg : Config) (s : Writer) :
    writeChar cfg s '\r' = some (carriageReturn s) := by
  simp [writeChar]

lemma writeChar_tab_eq (cfg : Config) (s : Writer) :
    writeChar cfg s '\t' =
      (match writeCharDefault cfg s ' ' with
      | none => none
      | some s1 =>
        match writeCharDefault cfg s1 ' ' with
        | none => none
        | some s2 =>
          match writeCharDefault cfg s2 ' ' with
          | none => none
          | some s3 => writeCharDefault cfg s3 ' ') := by
  simp [writeChar]

lemma writeChar_default_eq (cfg : Config) (s : Writer) (c : Char)
    (hn : c ≠ '\n') (hr : c ≠ '\r') (ht : c ≠ '\t') :
    writeChar cfg s c = writeCharDefault cfg s c := by
  simp [writeChar, hn, hr, ht]

lemma afterXCheck_some_elim (cfg : Config) (s s1 : Writer)
    (hw : afterXCheck cfg s = some s1) :
    (cfg.info.width ≤ s.x_pos + cfg.rasterWidth ∧ newline cfg s = some s1) ∨
    (s.x_pos + cfg.rasterWidth < cfg.info.width ∧ s1 = s) := by
  unfold afterXCheck at hw
  split at hw
  · rename_i hcond
    exact Or.inl ⟨hcond, hw⟩
  · rename_i hcond
    injection hw with h2
    exact Or.inr ⟨by omega, h2.symm⟩

lemma afterYCheck_some_elim (cfg : Config) (s s1 : Writer)
    (hw : afterYCheck cfg s = some s1) :
    (cfg.info.height ≤ s.y_pos + cfg.rasterHeight + BORDER_PADDING ∧
      scrollScreen cfg s = some s1) ∨
    (s.y_pos + cfg.rasterHeight + BORDER_PADDING < cfg.info.height ∧ s1 = s) := by
  unfold afterYCheck at hw
  split at hw
  · rename_i hcond
    exact Or.inl ⟨hcond, hw⟩
  · rename_i hcond
    injection hw with h2
    exact Or.inr ⟨by omega, h2.symm⟩

lemma writeCharDefault_some_elim (cfg : Config) (s : Writer) (c : Char) (s1 : Writer)
    (hw : writeCharDefault cfg s c = some s1) :
    ∃ sa sb, afterXCheck cfg s = some sa ∧ afterYCheck cfg sa = some sb ∧
      writeRenderedChar cfg sb (cfg.getCharRaster c) = some s1 := by
  unfold writeCharDefault at hw
  cases hx : afterXCheck cfg s with
  | none => rw [hx] at hw; exact absurd hw (by simp)
  | some sa =>
    rw [hx] at hw
    dsimp only at hw
    cases hy : afterYCheck cfg sa with
    | none => rw [hy] at hw; exact absurd hw (by simp)
    | some sb =>
      rw [hy] at hw
      dsimp only at hw
      exact ⟨sa, sb, rfl, hy, hw⟩

lemma two_le_lineHeight (cfg : Config) : 2 ≤ lineHeight cfg := by
  unfold lineHeight LINE_SPACING
  omega

lemma newline_inv (cfg : Config) (s s1 : Writer)
    (hw : newline cfg s = some s1) (hInv : WriterInv cfg s) : WriterInv cfg s1 := by
  obtain ⟨⟨k, hk⟩, hlt⟩ := hInv
  obtain ⟨hx, hc, hlen, hcase⟩ := newline_some_elim cfg s s1 hw
  rcases hcase with ⟨hy, hh, _⟩ | ⟨hy, hh⟩
  · refine ⟨⟨k + 1, ?_⟩, by omega⟩
    rw [hy, hk, Nat.succ_mul]
    omega
  · exact ⟨⟨k, by omega⟩, by omega⟩

lemma scrollScreen_inv (cfg : Config) (s s1 : Writer)
    (hw : scrollScreen cfg s = some s1) (hInv : WriterInv cfg s) : WriterInv cfg s1 := by
  obtain ⟨⟨k, hk⟩, hlt⟩ := hInv
  obtain ⟨hbl, hlh, hfb, hx, hy, hc⟩ := scrollScreen_some_elim cfg s s1 hw
  have h2 := two_le_lineHeight cfg
  rcases k with _ | k'
  · exfalso
    unfold BORDER_PADDING at hk
    omega
  · refine ⟨⟨k', ?_⟩, by omega⟩
    rw [Nat.succ_mul] at hk
    omega

lemma writeCharDefault_inv (cfg : Config) (s : Writer) (c : Char) (s1 : Writer)
    (hw : writeCharDefault cfg s c = some s1) (hInv : WriterInv cfg s) :
    WriterInv cfg s1 := by
  obtain ⟨sa, sb, hxc, hyc, hbl⟩ := writeCharDefault_some_elim cfg s c s1 hw
  have hInva : WriterInv cfg sa := by
    rcases afterXCheck_some_elim cfg s sa hxc with ⟨_, hnl⟩ | ⟨_, rfl⟩
    · exact newline_inv cfg s sa hnl hInv
    · exact hInv
  have hInvb : WriterInv cfg sb := by
    rcases afterYCheck_some_elim cfg sa sb hyc with ⟨_, hsc⟩ | ⟨_, rfl⟩
    · exact scrollScreen_inv cfg sa sb hsc hInva
    · exact hInva
  obtain ⟨_, hy, _, _⟩ := writeRenderedChar_fields cfg sb _ s1 hbl
  obtain ⟨⟨k, hk⟩, hlt⟩ := hInvb
  exact ⟨⟨k, by omega⟩, by omega⟩

lemma writeChar_inv (cfg : Config) (s : Writer) (c : Char) (s1 : Writer)
    (hw : writeChar cfg s c = some s1) (hInv : WriterInv cfg s) :
    WriterInv cfg s1 := by
  by_cases hn : c = '\n'
  · subst hn
    rw [writeChar_newline_eq] at hw
    exact newline_inv cfg s s1 hw hInv
  by_cases hr : c = '\r'
  · subst hr
    rw [writeChar_cr_eq] at hw
    injection hw with h2
    subst h2
    obtain ⟨⟨k, hk⟩, hlt⟩ := hInv
    exact ⟨⟨k, hk⟩, hlt⟩
  by_cases ht : c = '\t'
  · subst ht
    rw [writeChar_tab_eq] at hw
    cases h1 : writeCharDefault cfg s ' ' with
    | none => rw [h1] at hw; exact absurd hw (by simp)
    | some t1 =>
      rw [h1] at hw
      dsimp only at hw
      cases h2 : writeCharDefault cfg t1 ' ' with
      | none => rw [h2] at hw; exact absurd hw (by simp)
      | some t2 =>
        rw [h2] at hw
        dsimp only at hw
        cases h3 : writeCharDefault cfg t2 ' ' with
        | none => rw [h3] at hw; exact absurd hw (by simp)
        | some t3 =>
          rw [h3] at hw
          dsimp only at hw
          exact writeCharDefault_inv cfg t3 ' ' s1 hw
            (writeCharDefault_inv cfg t2 ' ' t3 h3
              (writeCharDefault_inv cfg t1 ' ' t2 h2
                (writeCharDefault_inv cfg s ' ' t1 h1 hInv)))
  · rw [writeChar_default_eq cfg s c hn hr ht] at hw
    exact writeCharDefault_inv cfg s c s1 hw hInv

lemma writeCharDefault_fields (cfg : Config) (s : Writer) (c : Char) (s1 : Writer)
    (hw : writeCharDefault cfg s c = some s1) :
    s1.current_color = s.current_color ∧
    s1.framebuffer.length = s.framebuffer.length := by
  obtain ⟨sa, sb, hxc, hyc, hbl⟩ := writeCharDefault_some_elim cfg s c s1 hw
  have ha : sa.current_color = s.current_color ∧
      sa.framebuffer.length = s.framebuffer.length := by
    rcases afterXCheck_some_elim cfg s sa hxc with ⟨_, hnl⟩ | ⟨_, rfl⟩
    · obtain ⟨_, hc, hlen, _⟩ := newline_some_elim cfg s sa hnl
      exact ⟨hc, hlen⟩
    · exact ⟨rfl, rfl⟩
  have hb : sb.current_color = sa.current_color ∧
      sb.framebuffer.length = sa.framebuffer.length := by
    rcases afterYCheck_some_elim cfg sa sb hyc with ⟨_, hsc⟩ | ⟨_, rfl⟩
    · obtain ⟨_, _, _, _, _, hc⟩ := scrollScreen_some_elim cfg sa sb hsc
      exact ⟨hc, scrollScreen_length cfg sa sb hsc⟩
    · exact ⟨rfl, rfl⟩
  obtain ⟨_, _, hc1, hl1⟩ := writeRenderedChar_fields cfg sb _ s1 hbl
  exact ⟨(hc1.trans hb.1).trans ha.1, (hl1.trans hb.2).trans ha.2⟩

lemma writeChar_fields (cfg : Config) (s : Writer) (c : Char) (s1 : Writer)
    (hw : writeChar cfg s c = some s1) :
    s1.current_color = s.current_color ∧
    s1.framebuffer.length = s.framebuffer.length := by
  by_cases hn : c = '\n'
  · subst hn
    rw [writeChar_newline_eq] at hw
    obtain ⟨_, hc, hlen, _⟩ := newline_some_elim cfg s s1 hw
    exact ⟨hc, hlen⟩
  by_cases hr : c = '\r'
  · subst hr
    rw [writeChar_cr_eq] at hw
    injection hw with h2
    subst h2
    exact ⟨rfl, rfl⟩
  by_cases ht : c = '\t'
  · subst ht
    rw [writeChar_tab_eq] at hw
    cases h1 : writeCharDefault cfg s ' ' with
    | none => rw [h1] at hw; exact absurd hw (by simp)
    | some t1 =>
      rw [h1] at hw
      dsimp only at hw
      cases h2 : writeCharDefault cfg t1 ' ' with
      | none => rw [h2] at hw; exact absurd hw (by simp)
      | some t2 =>
        rw [h2] at hw
        dsimp only at hw
        cases h3 : writeCharDefault cfg t2 ' ' with
        | none => rw [h3] at hw; exact absurd hw (by simp)
        | some t3 =>
          rw [h3] at hw
          dsimp only at hw
          obtain ⟨a1, b1⟩ := writeCharDefault_fields cfg s ' ' t1 h1
          obtain ⟨a2, b2⟩ := writeCharDefault_fields cfg t1 ' ' t2 h2
          obtain ⟨a3, b3⟩ := writeCharDefault_fields cfg t2 ' ' t3 h3
          obtain ⟨a4, b4⟩ := writeCharDefault_fields cfg t3 ' ' s1 hw
          exact ⟨((a4.trans a3).trans a2).trans a1, ((b4.trans b3).trans b2).trans b1⟩
  · rw [writeChar_default_eq cfg s c hn hr ht] at hw
    exact writeCharDefault_fields cfg s c s1 hw

lemma printChars_pres (cfg : Config) (P : Writer → Prop)
    (hstep : ∀ s c s1, writeChar cfg s c = some s1 → P s → P s1)
    (hcol : ∀ (s : Writer) (col : Rgb), P s → P { s with current_color := col }) :
    ∀ (n : Nat) (t : List Char), t.length ≤ n → ∀ s s1,
      printChars cfg s t = some s1 → P s → P s1 := by
  intro n
  induction n with
  | zero =>
    intro t ht s s1 hw hP
    cases t with
    | nil =>
      simp only [printChars] at hw
      injection hw with h2
      subst h2
      exact hP
    | cons c rest => exact absurd ht (by simp only [List.length_cons]; omega)
  | succ n ih =>
    intro t ht s s1 hw hP
    cases t with
    | nil =>
      simp only [printChars] at hw
      injection hw with h2
      subst h2
      exact hP
    | cons c rest =>
      rw [printChars.eq_def] at hw
      dsimp only at hw
      by_cases hc : c = '\\'
      · rw [if_pos hc] at hw
        cases rest with
        | nil =>
          injection hw with h2
          subst h2
          exact hP
        | cons next rest2 =>
          dsimp only at hw
          simp only [List.length_cons] at ht
          by_cases h1 : next = 'c'
          · rw [if_pos h1] at hw
            exact ih rest2 (by omega) _ s1 hw (hcol s COLOR_BLUE hP)
          · rw [if_neg h1] at hw
            by_cases h2 : next = 'r'
            · rw [if_pos h2] at hw
              exact ih rest2 (by omega) _ s1 hw (hcol s COLOR_WHITE hP)
            · rw [if_neg h2] at hw
              cases hwc : writeChar cfg s '\\' with
              | none => rw [hwc] at hw; exact absurd hw (by simp)
              | some s2 =>
                rw [hwc] at hw
                dsimp only at hw
                exact ih rest2 (by omega) s2 s1 hw (hstep s '\\' s2 hwc hP)
      · rw [if_neg hc] at hw
        simp only [List.length_cons] at ht
        cases hwc : writeChar cfg s c with
        | none => rw [hwc] at hw; exact absurd hw (by simp)
        | some s2 =>
          rw [hwc] at hw
          dsimp only at hw
          exact ih rest (by omega) s2 s1 hw (hstep s c s2 hwc hP)

lemma printChars_inv (cfg : Config) (t : List Char) (s s1 : Writer)
    (hw : printChars cfg s t = some s1) (hInv : WriterInv cfg s) :
    WriterInv cfg s1 := by
  refine printChars_pres cfg (WriterInv cfg)
    (fun s c s1 hwc hP => writeChar_inv cfg s c s1 hwc hP)
    (fun s col hP => ?_) t.length t le_rfl s s1 hw hInv
  obtain ⟨⟨k, hk⟩, hlt⟩ := hP
  exact ⟨⟨k, hk⟩, hlt⟩

lemma printChars_length (cfg : Config) (t : List Char) (s s1 : Writer)
    (hw : printChars cfg s t = some s1) :
    s1.framebuffer.length = s.framebuffer.length := by
  refine printChars_pres cfg (fun u => u.framebuffer.length = s.framebuffer.length)
    (fun u c u1 hwc hP => ?_) (fun u col hP => hP) t.length t le_rfl s s1 hw rfl
  obtain ⟨_, hl⟩ := writeChar_fields cfg u c u1 hwc
  omega

lemma reachable_inv (cfg : Config) (hh : 1 < cfg.info.height)
    (s : Writer) (hr : Reachable cfg s) : WriterInv cfg s := by
  induction hr with
  | init fb =>
    refine ⟨⟨0, ?_⟩, ?_⟩
    · simp [FrameBufferWriter.new, clear, BORDER_PADDING]
    · simpa [FrameBufferWriter.new, clear, BORDER_PADDING] using hh
  | print_step s s1 t h hp ih => exact printChars_inv cfg t s s1 hp ih
  | clear_step s h ih =>
    refine ⟨⟨0, ?_⟩, ?_⟩
    · simp [clear, BORDER_PADDING]
    · simpa [clear, BORDER_PADDING] using hh

lemma writeStr_pres (cfg : Config) (P : Writer → Prop)
    (hstep : ∀ s c s1, writeChar cfg s c = some s1 → P s → P s1) :
    ∀ (t : List Char) (s s1 : Writer),
      writeStr cfg s t = some s1 → P s → P s1 := by
  intro t
  induction t with
  | nil =>
    intro s s1 hw hP
    simp only [writeStr] at hw
    injection hw with h2
    subst h2
    exact hP
  | cons c rest ih =>
    intro s s1 hw hP
    simp only [writeStr] at hw
    cases hwc : writeChar cfg s c with
    | none => rw [hwc] at hw; exact absurd hw (by simp)
    | some s2 =>
      rw [hwc] at hw
      dsimp only at hw
      exact ih s2 s1 hw (hstep s c s2 hwc hP)

lemma writePixel_inbounds_intro (cfg : Config) (s : Writer) (x y i : Nat)
    (hlen : s.framebuffer.length
      = cfg.info.stride * cfg.info.height * cfg.info.bytes_per_pixel)
    (hx : x < cfg.info.stride) (hy : y < cfg.info.height)
    (hbpp : cfg.info.bytes_per_pixel ≤ 3) :
    ∃ s1, writePixel cfg s x y i = some s1 := by
  apply writePixel_some_intro cfg s x y i _ hbpp
  rw [hlen]
  have h1 : y * cfg.info.stride + x + 1 ≤ cfg.info.stride * cfg.info.height := by
    calc y * cfg.info.stride + x + 1 ≤ y * cfg.info.stride + cfg.info.stride := by omega
    _ = (y + 1) * cfg.info.stride := by ring
    _ ≤ cfg.info.height * cfg.info.stride := Nat.mul_le_mul_right _ hy
    _ = cfg.info.stride * cfg.info.height := Nat.mul_comm _ _
  calc (y * cfg.info.stride + x) * cfg.info.bytes_per_pixel + cfg.info.bytes_per_pixel
      = (y * cfg.info.stride + x + 1) * cfg.info.bytes_per_pixel := by ring
  _ ≤ cfg.info.stride * cfg.info.height * cfg.info.bytes_per_pixel :=
      Nat.mul_le_mul_right _ h1

lemma blitRow_some (cfg : Config) (y : Nat) :
    ∀ (row : List Nat) (x : Nat) (s : Writer),
    s.framebuffer.length
      = cfg.info.stride * cfg.info.height * cfg.info.bytes_per_pixel →
    cfg.info.bytes_per_pixel ≤ 3 →
    s.y_pos + y < cfg.info.height →
    s.x_pos + x + row.length ≤ cfg.info.stride →
    ∃ s1, blitRow cfg y x row s = some s1 := by
  intro row
  induction row with
  | nil =>
    intro x s _ _ _ _
    exact ⟨s, rfl⟩
  | cons b rest ih =>
    intro x s hlen hbpp hy hx
    simp only [List.length_cons] at hx
    simp only [blitRow]
    split
    · obtain ⟨s2, hs2⟩ := writePixel_inbounds_intro cfg s (s.x_pos + x) (s.y_pos + y) b
        hlen (by omega) hy hbpp
      rw [hs2]
      obtain ⟨e1, e2, e3, e4⟩ := writePixel_fields cfg s _ _ b s2 hs2
      exact ih (x + 1) s2 (by omega) hbpp (by omega) (by omega)
    · exact ih (x + 1) s hlen hbpp hy (by omega)

lemma blitRows_some (cfg : Config) :
    ∀ (rows : List (List Nat)) (y : Nat) (s : Writer),
    s.framebuffer.length
      = cfg.info.stride * cfg.info.height * cfg.info.bytes_per_pixel →
    cfg.info.bytes_per_pixel ≤ 3 →
    s.y_pos + y + rows.length ≤ cfg.info.height →
    (∀ row ∈ rows, s.x_pos + row.length ≤ cfg.info.stride) →
    ∃ s1, blitRows cfg y rows s = some s1 := by
  intro rows
  induction rows with
  | nil =>
    intro y s _ _ _ _
    exact ⟨s, rfl⟩
  | cons row rest ih =>
    intro y s hlen hbpp hy hx
    simp only [List.length_cons] at hy
    simp only [blitRows]
    obtain ⟨s2, hs2⟩ := blitRow_some cfg y row 0 s hlen hbpp (by omega)
      (by have := hx row (List.mem_cons_self row rest); omega)
    rw [hs2]
    obtain ⟨e1, e2, e3, e4⟩ := blitRow_fields cfg y row 0 s s2 hs2
    exact ih (y + 1) s2 (by omega) hbpp (by omega)
      (fun r hr => by have := hx r (List.mem_cons_of_mem row hr); omega)

lemma writeRenderedChar_some (cfg : Config) (s : Writer) (rc : RasterizedChar)
    (hlen : s.framebuffer.length
      = cfg.info.stride * cfg.info.height * cfg.info.bytes_per_pixel)
    (hbpp : cfg.info.bytes_per_pixel ≤ 3)
    (hrows : s.y_pos + rc.raster.length ≤ cfg.info.height)
    (hcols : ∀ row ∈ rc.raster, s.x_pos + row.length ≤ cfg.info.stride) :
    ∃ s1, writeRenderedChar cfg s rc = some s1 := by
  obtain ⟨s2, hs2⟩ := blitRows_some cfg rc.raster 0 s hlen hbpp (by omega) hcols
  unfold writeRenderedChar
  rw [hs2]
  exact ⟨_, rfl⟩

lemma bytesPerLine_le (cfg : Config)
    (hh : lineHeight cfg ≤ cfg.info.height) :
    bytesPerLine cfg
      ≤ cfg.info.stride * cfg.info.height * cfg.info.bytes_per_pixel := by
  unfold bytesPerLine
  exact Nat.mul_le_mul_right _ (Nat.mul_le_mul_left _ hh)

lemma writeCharDefault_some (cfg : Config) (s : Writer) (c : Char)
    (hlen : s.framebuffer.length
      = cfg.info.stride * cfg.info.height * cfg.info.bytes_per_pixel)
    (hbpp : cfg.info.bytes_per_pixel ≤ 3)
    (hws : cfg.info.width ≤ cfg.info.stride)
    (hcw : BORDER_PADDING + cfg.rasterWidth ≤ cfg.info.width)
    (hh : cfg.rasterHeight + 2 * BORDER_PADDING < cfg.info.height)
    (hrows : (cfg.getCharRaster c).raster.length ≤ cfg.rasterHeight)
    (hcols : ∀ row ∈ (cfg.getCharRaster c).raster, row.length ≤ cfg.rasterWidth)
    (hInv : WriterInv cfg s) :
    ∃ s1, writeCharDefault cfg s c = some s1 := by
  have hlh : lineHeight cfg ≤ cfg.info.height := by
    unfold lineHeight LINE_SPACING
    unfold BORDER_PADDING at hh
    omega
  have hbl : bytesPerLine cfg ≤ s.framebuffer.length := by
    rw [hlen]
    exact bytesPerLine_le cfg hlh
  unfold writeCharDefault
  -- the horizontal-wrap check
  have hstep1 : ∃ sa, afterXCheck cfg s = some sa ∧ WriterInv cfg sa ∧
      sa.x_pos + cfg.rasterWidth ≤ cfg.info.width ∧
      sa.framebuffer.length = s.framebuffer.length := by
    unfold afterXCheck
    split
    · obtain ⟨sa, hsa⟩ := newline_some_intro cfg s hbl
      obtain ⟨hx, _, hl, _⟩ := newline_some_elim cfg s sa hsa
      exact ⟨sa, hsa, newline_inv cfg s sa hsa hInv, by rw [hx]; exact hcw, hl⟩
    · rename_i hxlt
      exact ⟨s, rfl, hInv, by omega, rfl⟩
  obtain ⟨sa, hsa, hInva, hax, halen⟩ := hstep1
  rw [hsa]
  dsimp only
  -- the vertical-overflow check
  have hstep2 : ∃ sb, afterYCheck cfg sa = some sb ∧
      sb.y_pos + cfg.rasterHeight ≤ cfg.info.height ∧
      sb.x_pos = sa.x_pos ∧
      sb.framebuffer.length = sa.framebuffer.length := by
    unfold afterYCheck
    split
    · rename_i hfire
      obtain ⟨⟨k, hk⟩, hylt⟩ := hInva
      have hky : lineHeight cfg ≤ sa.y_pos := by
        rcases k with _ | k'
        · exfalso
          unfold BORDER_PADDING at hk hfire hh
          unfold lineHeight LINE_SPACING at hk
          omega
        · rw [Nat.succ_mul] at hk
          unfold BORDER_PADDING at hk
          omega
      have hbpl_sa : bytesPerLine cfg ≤ sa.framebuffer.length := by
        rw [halen, hlen]
        exact bytesPerLine_le cfg hlh
      rw [scrollScreen_some_intro cfg sa hbpl_sa hky]
      refine ⟨_, rfl, ?_, rfl, ?_⟩
      · dsimp only
        unfold lineHeight LINE_SPACING at hky ⊢
        omega
      · dsimp only
        simp only [List.length_append, List.length_drop, List.length_replicate]
        omega
    · rename_i hnofire
      unfold BORDER_PADDING at hnofire
      exact ⟨sa, rfl, by omega, rfl, rfl⟩
  obtain ⟨sb, hsb, hby, hbx, hblen⟩ := hstep2
  rw [hsb]
  dsimp only
  exact writeRenderedChar_some cfg sb (cfg.getCharRaster c)
    (by rw [hblen, halen]; exact hlen) hbpp (by omega)
    (fun r hr => by have := hcols r hr; omega)

/-- A geometry whose stride (2) is smaller than its width (10): the
horizontal-wrap check compares against `width`, so glyphs can be blitted at
byte offsets beyond the buffer. -/
def cfgC1 : Config :=
  { info := { width := 10, height := 10, stride := 2, bytes_per_pixel := 1 }
    rasterHeight := 1
    rasterWidth := 1
    getCharRaster := fun _ => { raster := [[1]], width := 1 } }

/-- The writer state reached from construction after `"\n\nAAAAA"`. -/
def sC1 : Writer :=
  { framebuffer := List.replicate 15 0 ++ [1, 1, 1, 1, 1]
    x_pos := 6, y_pos := 7, current_color := COLOR_WHITE }

/-- C1, counterexample: with the geometry `cfgC1` (a reachable writer
state, printable character 'A'), neither pre-blit check fires, yet the
single blit write of the glyph falls at byte offset 20 of a 20-byte
framebuffer: the pre-blit checks do not guarantee in-bounds writes for
every geometry descriptor. -/
theorem c1_counterexample :
    printChars cfgC1 (FrameBufferWriter.new (List.replicate 20 0))
      ['\n', '\n', 'A', 'A', 'A', 'A', 'A'] = some sC1 ∧
    sC1.x_pos + cfgC1.rasterWidth < cfgC1.info.width ∧
    sC1.y_pos + cfgC1.rasterHeight + BORDER_PADDING < cfgC1.info.height ∧
    (sC1.y_pos * cfgC1.info.stride + sC1.x_pos) * cfgC1.info.bytes_per_pixel
        + cfgC1.info.bytes_per_pixel > sC1.framebuffer.length ∧
    writePixel cfgC1 sC1 (sC1.x_pos + 0) (sC1.y_pos + 0) 1 = none ∧
    writeChar cfgC1 sC1 'A' = none := by
  decide

/-- C1 (amended): for a geometry descriptor satisfying the construction
contract (buffer length = `stride*height*bytes_per_pixel`,
`width ≤ stride`, `bytes_per_pixel ≤ 3`, a glyph cell plus the border
padding fits the width, and the height strictly exceeds the glyph height
plus twice the border padding), and a font whose rasters fit the glyph
cell, every printable (non-control) character written from a reachable
writer state completes the blit with every `write_pixel` byte range inside
the framebuffer (`some` certifies that no access was out of bounds), and
the buffer length is unchanged. -/
theorem c1_blit_in_bounds (cfg : Config) (s : Writer) (c : Char)
    (hreach : Reachable cfg s)
    (hlen : s.framebuffer.length
      = cfg.info.stride * cfg.info.height * cfg.info.bytes_per_pixel)
    (hbpp : cfg.info.bytes_per_pixel ≤ 3)
    (hws : cfg.info.width ≤ cfg.info.stride)
    (hcw : BORDER_PADDING + cfg.rasterWidth ≤ cfg.info.width)
    (hh : cfg.rasterHeight + 2 * BORDER_PADDING < cfg.info.height)
    (hrows : (cfg.getCharRaster c).raster.length ≤ cfg.rasterHeight)
    (hcols : ∀ row ∈ (cfg.getCharRaster c).raster, row.length ≤ cfg.rasterWidth)
    (hn : c ≠ '\n') (hr : c ≠ '\r') (ht : c ≠ '\t') :
    ∃ s1, writeChar cfg s c = some s1 ∧
      s1.framebuffer.length = s.framebuffer.length := by
  have hInv := reachable_inv cfg (by unfold BORDER_PADDING at hh; omega) s hreach
  rw [writeChar_default_eq cfg s c hn hr ht]
  obtain ⟨s1, h1⟩ :=
    writeCharDefault_some cfg s c hlen hbpp hws hcw hh hrows hcols hInv
  exact ⟨s1, h1, (writeCharDefault_fields cfg s c s1 h1).2⟩

/-- A contract-satisfying geometry used to witness `c1_blit_in_bounds`. -/
def cfgW1 : Config :=
  { info := { width := 2, height := 4, stride := 2, bytes_per_pixel := 1 }
    rasterHeight := 1
    rasterWidth := 1
    getCharRaster := fun _ => { raster := [[0]], width := 1 } }

/-- The freshly constructed writer for `cfgW1`. -/
def sW1 : Writer := FrameBufferWriter.new (List.replicate 8 0)

/-- Witness for `c1_blit_in_bounds` at a concrete input. -/
theorem c1_blit_in_bounds_witness :
    (sW1.framebuffer.length
        = cfgW1.info.stride * cfgW1.info.height * cfgW1.info.bytes_per_pixel ∧
      cfgW1.info.bytes_per_pixel ≤ 3 ∧
      cfgW1.info.width ≤ cfgW1.info.stride ∧
      BORDER_PADDING + cfgW1.rasterWidth ≤ cfgW1.info.width ∧
      cfgW1.rasterHeight + 2 * BORDER_PADDING < cfgW1.info.height ∧
      (cfgW1.getCharRaster 'A').raster.length ≤ cfgW1.rasterHeight ∧
      (∀ row ∈ (cfgW1.getCharRaster 'A').raster, row.length ≤ cfgW1.rasterWidth)) ∧
    ∃ s1, writeChar cfgW1 sW1 'A' = some s1 ∧
      s1.framebuffer.length = sW1.framebuffer.length :=
  ⟨⟨by decide, by decide, by decide, by decide, by decide, by decide, by decide⟩,
    c1_blit_in_bounds cfgW1 sW1 'A' (Reachable.init (List.replicate 8 0))
      (by decide) (by decide) (by decide) (by decide) (by decide) (by decide)
      (by decide) (by decide) (by decide) (by decide)⟩

/-- A geometry with `height = rasterHeight + 2*BORDER_PADDING` (3): the
bottom-edge check fires on the very first printable character, while
`y_pos` is still at the padding origin. -/
def cfgC9 : Config :=
  { info := { width := 10, height := 3, stride := 4, bytes_per_pixel := 1 }
    rasterHeight := 1
    rasterWidth := 1
    getCharRaster := fun _ => { raster := [[0]], width := 1 } }

/-- The freshly constructed writer for `cfgC9`. -/
def sC9 : Writer := FrameBufferWriter.new (List.replicate 12 0)

/-- C9, counterexample: from a freshly constructed writer on `cfgC9`,
`write_char`'s bottom-edge check invokes `scroll_screen` while
`y_pos = 1 < line_height = 3`, so the unsigned subtraction
`y_pos -= line_height` underflows (the scroll, and hence the whole
character write, aborts), even though the buffer-length guard itself
holds. -/
theorem c9_counterexample :
    cfgC9.info.height ≤ sC9.y_pos + cfgC9.rasterHeight + BORDER_PADDING ∧
    sC9.x_pos + cfgC9.rasterWidth < cfgC9.info.width ∧
    sC9.y_pos < lineHeight cfgC9 ∧
    bytesPerLine cfgC9 ≤ sC9.framebuffer.length ∧
    scrollScreen cfgC9 sC9 = none ∧
    writeChar cfgC9 sC9 'A' = none := by
  decide

/-- C9 (amended): provided the height strictly exceeds the glyph height
plus twice the border padding, whenever `scroll_screen` is invoked from a
reachable state — from `write_char`'s bottom-edge check (on the state `s1`
left by the horizontal-wrap check) or from `newline` (which increments
`y_pos` by one line height first) — `y_pos` is at least one line height,
so the unsigned subtraction `y_pos -= line_height` cannot underflow. -/
theorem c9_no_underflow (cfg : Config) (s s1 : Writer)
    (hreach : Reachable cfg s)
    (hh : cfg.rasterHeight + 2 * BORDER_PADDING < cfg.info.height)
    (hx : afterXCheck cfg s = some s1)
    (hfire : cfg.info.height ≤ s1.y_pos + cfg.rasterHeight + BORDER_PADDING) :
    lineHeight cfg ≤ s1.y_pos ∧
    lineHeight cfg ≤ s.y_pos + lineHeight cfg := by
  have hInv := reachable_inv cfg (by unfold BORDER_PADDING at hh; omega) s hreach
  have hInv1 : WriterInv cfg s1 := by
    rcases afterXCheck_some_elim cfg s s1 hx with ⟨_, hnl⟩ | ⟨_, rfl⟩
    · exact newline_inv cfg s s1 hnl hInv
    · exact hInv
  obtain ⟨⟨k, hk⟩, hlt⟩ := hInv1
  refine ⟨?_, by omega⟩
  rcases k with _ | k'
  · exfalso
    unfold BORDER_PADDING at hk hfire hh
    omega
  · rw [Nat.succ_mul] at hk
    unfold BORDER_PADDING at hk
    omega

/-- A geometry on which the bottom-edge check fires from a reachable state
with `y_pos = 4` (after one newline). -/
def cfgW9 : Config :=
  { info := { width := 10, height := 5, stride := 10, bytes_per_pixel := 1 }
    rasterHeight := 1
    rasterWidth := 1
    getCharRaster := fun _ => { raster := [[0]], width := 1 } }

/-- The writer for `cfgW9` after printing one newline. -/
def sW9 : Writer :=
  { framebuffer := List.replicate 50 0, x_pos := 1, y_pos := 4,
    current_color := COLOR_WHITE }

/-- Witness for `c9_no_underflow` at a concrete input. -/
theorem c9_no_underflow_witness :
    (cfgW9.rasterHeight + 2 * BORDER_PADDING < cfgW9.info.height ∧
      afterXCheck cfgW9 sW9 = some sW9 ∧
      cfgW9.info.height ≤ sW9.y_pos + cfgW9.rasterHeight + BORDER_PADDING) ∧
    (lineHeight cfgW9 ≤ sW9.y_pos ∧
      lineHeight cfgW9 ≤ sW9.y_pos + lineHeight cfgW9) :=
  ⟨⟨by decide, by decide, by decide⟩,
    c9_no_underflow cfgW9 sW9 sW9
      (Reachable.print_step _ _ ['\n']
        (Reachable.init (List.replicate 50 0)) (by decide))
      (by decide) (by decide) (by decide)⟩

/-- C3: when `bytes_per_line <= buffer_length`, the tail move
(`copy_within(bytes_per_line.., 0)`) and the final-line zero-fill of
`scroll_screen` stay within the framebuffer slice: the buffer operation
succeeds and preserves the buffer length, and any successful
`scroll_screen` preserves the framebuffer length. -/
theorem c3_scroll_within_bounds (cfg : Config) (fb : List Nat)
    (h : bytesPerLine cfg ≤ fb.length) :
    (∃ fb2, scrollBuffer cfg fb = some fb2 ∧ fb2.length = fb.length) ∧
    (∀ s s1 : Writer, scrollScreen cfg s = some s1 →
      s1.framebuffer.length = s.framebuffer.length) := by
  constructor
  · refine ⟨_, scrollBuffer_some_intro cfg fb h, ?_⟩
    simp only [List.length_append, List.length_drop, List.length_replicate]
    omega
  · exact fun s s1 hw => scrollScreen_length cfg s s1 hw

/-- Geometry used to witness the scroll theorems:
`bytes_per_line = 1*3*1 = 3`. -/
def cfgW3 : Config :=
  { info := { width := 1, height := 6, stride := 1, bytes_per_pixel := 1 }
    rasterHeight := 1
    rasterWidth := 1
    getCharRaster := fun _ => { raster := [[0]], width := 1 } }

/-- Witness for `c3_scroll_within_bounds` at a concrete input. -/
theorem c3_scroll_within_bounds_witness :
    bytesPerLine cfgW3 ≤ (List.replicate 6 1).length ∧
    ((∃ fb2, scrollBuffer cfgW3 (List.replicate 6 1) = some fb2 ∧
        fb2.length = (List.replicate 6 1).length) ∧
      (∀ s s1 : Writer, scrollScreen cfgW3 s = some s1 →
        s1.framebuffer.length = s.framebuffer.length)) :=
  ⟨by decide, c3_scroll_within_bounds cfgW3 (List.replicate 6 1) (by decide)⟩

/-- A state with `bytes_per_line <= buffer_length` but
`y_pos = 1 < line_height = 3`. -/
def sC4 : Writer :=
  { framebuffer := List.replicate 3 0, x_pos := 0, y_pos := 1,
    current_color := COLOR_WHITE }

/-- C4, counterexample: at `sC4` the claim's hypothesis
`bytes_per_line <= buffer_length` holds, yet `scroll_screen` does not
produce the described state — the unsigned decrement of `y_pos` underflows
(`none` models the panic), because `y_pos` is smaller than one line
height. -/
theorem c4_counterexample :
    bytesPerLine cfgW3 ≤ sC4.framebuffer.length ∧
    sC4.y_pos < lineHeight cfgW3 ∧
    scrollScreen cfgW3 sC4 = none := by
  decide

/-- C4 (amended): for every state with
`bytes_per_line <= buffer_length` **and `y_pos` at least one line
height**, `scroll_screen` moves the tail of the buffer to the start
(byte `i` of the result equals byte `i + bytes_per_line` of the original
for `i < len - bytes_per_line`), zero-fills the final `bytes_per_line`
bytes, decrements `y_pos` by exactly one line height
(`CHAR_RASTER_HEIGHT + LINE_SPACING`), and leaves `x_pos` unchanged. -/
theorem c4_scroll_effect (cfg : Config) (s : Writer)
    (h1 : bytesPerLine cfg ≤ s.framebuffer.length)
    (h2 : lineHeight cfg ≤ s.y_pos) :
    ∃ s1, scrollScreen cfg s = some s1 ∧
      s1.x_pos = s.x_pos ∧
      s1.y_pos = s.y_pos - lineHeight cfg ∧
      s1.y_pos + lineHeight cfg = s.y_pos ∧
      s1.framebuffer.length = s.framebuffer.length ∧
      (∀ i, i + bytesPerLine cfg < s.framebuffer.length →
        s1.framebuffer[i]? = s.framebuffer[i + bytesPerLine cfg]?) ∧
      (∀ i, s.framebuffer.length - bytesPerLine cfg ≤ i →
        i < s.framebuffer.length → s1.framebuffer[i]? = some 0) := by
  refine ⟨_, scrollScreen_some_intro cfg s h1 h2, rfl, rfl, by dsimp only; omega,
    ?_, ?_, ?_⟩
  · dsimp only
    simp only [List.length_append, List.length_drop, List.length_replicate]
    omega
  · intro i hi
    dsimp only
    rw [List.getElem?_append, if_pos (by simp only [List.length_drop]; omega),
      List.getElem?_drop]
    congr 1
    omega
  · intro i hi1 hi2
    dsimp only
    rw [List.getElem?_append,
      if_neg (by simp only [List.length_drop]; omega),
      List.getElem?_replicate, if_pos (by simp only [List.length_drop]; omega)]

/-- A state on `cfgW3` with `y_pos = 4 ≥ line_height = 3`. -/
def sW4 : Writer :=
  { framebuffer := [1, 2, 3, 4, 5, 6], x_pos := 2, y_pos := 4,
    current_color := COLOR_WHITE }

/-- Witness for `c4_scroll_effect` at a concrete input. -/
theorem c4_scroll_effect_witness :
    (bytesPerLine cfgW3 ≤ sW4.framebuffer.length ∧
      lineHeight cfgW3 ≤ sW4.y_pos) ∧
    (∃ s1, scrollScreen cfgW3 sW4 = some s1 ∧
      s1.x_pos = sW4.x_pos ∧
      s1.y_pos = sW4.y_pos - lineHeight cfgW3 ∧
      s1.y_pos + lineHeight cfgW3 = sW4.y_pos ∧
      s1.framebuffer.length = sW4.framebuffer.length ∧
      (∀ i, i + bytesPerLine cfgW3 < sW4.framebuffer.length →
        s1.framebuffer[i]? = sW4.framebuffer[i + bytesPerLine cfgW3]?) ∧
      (∀ i, sW4.framebuffer.length - bytesPerLine cfgW3 ≤ i →
        i < sW4.framebuffer.length → s1.framebuffer[i]? = some 0)) :=
  ⟨⟨by decide, by decide⟩, c4_scroll_effect cfgW3 sW4 (by decide) (by decide)⟩

/-- C6: `clear` zero-fills the whole framebuffer and resets the cursor to
`(BORDER_PADDING, BORDER_PADDING)`; construction performs exactly this
clear as its first action, so a fresh writer has an all-zero buffer and
the cursor at the padding origin; and `clear` is idempotent. -/
theorem c6_clear_effect (s : Writer) (fb : List Nat) :
    (clear s).framebuffer = List.replicate s.framebuffer.length 0 ∧
    (clear s).x_pos = BORDER_PADDING ∧
    (clear s).y_pos = BORDER_PADDING ∧
    FrameBufferWriter.new fb
      = clear { framebuffer := fb, x_pos := BORDER_PADDING,
                y_pos := BORDER_PADDING, current_color := COLOR_WHITE } ∧
    (FrameBufferWriter.new fb).framebuffer = List.replicate fb.length 0 ∧
    (FrameBufferWriter.new fb).x_pos = BORDER_PADDING ∧
    (FrameBufferWriter.new fb).y_pos = BORDER_PADDING ∧
    clear (clear s) = clear s := by
  refine ⟨rfl, rfl, rfl, rfl, ?_, rfl, rfl, ?_⟩
  · simp [FrameBufferWriter.new, clear]
  · simp [clear]

/-- C7: for a printable character whose glyph is rendered with neither the
horizontal-wrap check nor the vertical-scroll check firing, the write
advances `x_pos` by exactly the raster's width plus the letter spacing and
leaves `y_pos` unchanged. -/
theorem c7_cursor_advance (cfg : Config) (s : Writer) (c : Char) (s1 : Writer)
    (hn : c ≠ '\n') (hr : c ≠ '\r') (ht : c ≠ '\t')
    (hx : s.x_pos + cfg.rasterWidth < cfg.info.width)
    (hy : s.y_pos + cfg.rasterHeight + BORDER_PADDING < cfg.info.height)
    (hw : writeChar cfg s c = some s1) :
    s1.x_pos = s.x_pos + (cfg.getCharRaster c).width + LETTER_SPACING ∧
    s1.y_pos = s.y_pos := by
  rw [writeChar_default_eq cfg s c hn hr ht] at hw
  obtain ⟨sa, sb, hxc, hyc, hbl⟩ := writeCharDefault_some_elim cfg s c s1 hw
  have hsa : sa = s := by
    rcases afterXCheck_some_elim cfg s sa hxc with ⟨hfire, _⟩ | ⟨_, h⟩
    · omega
    · exact h
  rw [hsa] at hyc
  have hsb : sb = s := by
    rcases afterYCheck_some_elim cfg s sb hyc with ⟨hfire, _⟩ | ⟨_, h⟩
    · omega
    · exact h
  rw [hsb] at hbl
  obtain ⟨h1, h2, _, _⟩ := writeRenderedChar_fields cfg s _ s1 hbl
  exact ⟨h1, h2⟩

/-- A roomy geometry for the cursor-advance witness. -/
def cfgW7 : Config :=
  { info := { width := 5, height := 5, stride := 5, bytes_per_pixel := 1 }
    rasterHeight := 1
    rasterWidth := 1
    getCharRaster := fun _ => { raster := [[0]], width := 1 } }

/-- The freshly constructed writer for `cfgW7`. -/
def sW7 : Writer := FrameBufferWriter.new (List.replicate 25 0)

/-- The state after writing one character on `cfgW7`. -/
def sW7p : Writer :=
  { framebuffer := List.replicate 25 0, x_pos := 2, y_pos := 1,
    current_color := COLOR_WHITE }

/-- Witness for `c7_cursor_advance` at a concrete input. -/
theorem c7_cursor_advance_witness :
    ('A' ≠ '\n' ∧ 'A' ≠ '\r' ∧ 'A' ≠ '\t' ∧
      sW7.x_pos + cfgW7.rasterWidth < cfgW7.info.width ∧
      sW7.y_pos + cfgW7.rasterHeight + BORDER_PADDING < cfgW7.info.height ∧
      writeChar cfgW7 sW7 'A' = some sW7p) ∧
    (sW7p.x_pos = sW7.x_pos + (cfgW7.getCharRaster 'A').width + LETTER_SPACING ∧
      sW7p.y_pos = sW7.y_pos) :=
  ⟨⟨by decide, by decide, by decide, by decide, by decide, by decide⟩,
    c7_cursor_advance cfgW7 sW7 'A' sW7p (by decide) (by decide) (by decide)
      (by decide) (by decide) (by decide)⟩

/-- C8: writing `'\r'` resets `x_pos` to the border padding and leaves
`y_pos`, the color and the framebuffer untouched (the result is exactly
the input state with `x_pos := BORDER_PADDING`); writing `'\n'` always
leaves `x_pos` at the border padding, preserves the color and the buffer
length, and either advances `y_pos` by one line height or (when it
scrolled) leaves it unchanged. -/
theorem c8_newline_cr (cfg : Config) (s : Writer) :
    writeChar cfg s '\r' = some { s with x_pos := BORDER_PADDING } ∧
    (∀ t t1 : Writer, writeChar cfg t '\n' = some t1 →
      t1.x_pos = BORDER_PADDING ∧
      t1.current_color = t.current_color ∧
      t1.framebuffer.length = t.framebuffer.length ∧
      (t1.y_pos = t.y_pos + lineHeight cfg ∨ t1.y_pos = t.y_pos)) := by
  constructor
  · rw [writeChar_cr_eq]
    rfl
  · intro t t1 hw
    rw [writeChar_newline_eq] at hw
    obtain ⟨hx, hc, hl, hcase⟩ := newline_some_elim cfg t t1 hw
    rcases hcase with ⟨hy, _, _⟩ | ⟨hy, _⟩
    · exact ⟨hx, hc, hl, Or.inl hy⟩
    · exact ⟨hx, hc, hl, Or.inr hy⟩

/-- The state after writing `'\n'` on `cfgW7` from a fresh writer. -/
def sW8p : Writer :=
  { framebuffer := List.replicate 25 0, x_pos := 1, y_pos := 4,
    current_color := COLOR_WHITE }

/-- Witness for `c8_newline_cr` at a concrete input. -/
theorem c8_newline_cr_witness :
    writeChar cfgW7 sW7 '\n' = some sW8p ∧
    (sW8p.x_pos = BORDER_PADDING ∧
      sW8p.current_color = sW7.current_color ∧
      sW8p.framebuffer.length = sW7.framebuffer.length ∧
      (sW8p.y_pos = sW7.y_pos + lineHeight cfgW7 ∨ sW8p.y_pos = sW7.y_pos)) :=
  ⟨by decide, (c8_newline_cr cfgW7 sW7).2 sW7 sW8p (by decide)⟩

lemma printChars_esc_c (cfg : Config) (s : Writer) (rest : List Char) :
    printChars cfg s ('\\' :: 'c' :: rest)
      = printChars cfg { s with current_color := COLOR_BLUE } rest := by
  rfl

lemma printChars_esc_r (cfg : Config) (s : Writer) (rest : List Char) :
    printChars cfg s ('\\' :: 'r' :: rest)
      = printChars cfg { s with current_color := COLOR_WHITE } rest := by
  rfl

lemma printChars_esc_last (cfg : Config) (s : Writer) :
    printChars cfg s ['\\'] = some s := by
  rfl

lemma printChars_esc_other (cfg : Config) (s : Writer) (d : Char)
    (rest : List Char) (h1 : d ≠ 'c') (h2 : d ≠ 'r') :
    printChars cfg s ('\\' :: d :: rest)
      = (writeChar cfg s '\\').bind (fun s1 => printChars cfg s1 rest) := by
  rw [printChars.eq_def]
  dsimp only
  rw [if_pos rfl]
  rw [if_neg h1, if_neg h2]
  cases hwc : writeChar cfg s '\\' <;> rfl

lemma printChars_step (cfg : Config) (s : Writer) (c : Char)
    (rest : List Char) (hc : c ≠ '\\') :
    printChars cfg s (c :: rest)
      = (writeChar cfg s c).bind (fun s1 => printChars cfg s1 rest) := by
  rw [printChars.eq_def]
  dsimp only
  rw [if_neg hc]
  cases hwc : writeChar cfg s c <;> rfl

/-- C5: inside `print`, a backslash followed by `c` switches to the accent
color and renders nothing, a backslash followed by `r` resets to the
normal color and renders nothing, a backslash followed by any other
character renders a single literal backslash through `write_char` and
drops the following character, a trailing backslash is silently dropped,
and `print("\cA\rB")` renders exactly 'A' with the accent color active and
'B' with the normal color active, with no backslash, 'c' or 'r' glyph. -/
theorem c5_escape_interp (cfg : Config) (s : Writer) :
    (∀ rest, printChars cfg s ('\\' :: 'c' :: rest)
        = printChars cfg { s with current_color := COLOR_BLUE } rest) ∧
    (∀ rest, printChars cfg s ('\\' :: 'r' :: rest)
        = printChars cfg { s with current_color := COLOR_WHITE } rest) ∧
    (∀ (d : Char) rest, d ≠ 'c' → d ≠ 'r' →
      printChars cfg s ('\\' :: d :: rest)
        = (writeChar cfg s '\\').bind (fun s1 => printChars cfg s1 rest)) ∧
    printChars cfg s ['\\'] = some s ∧
    printChars cfg s ['\\', 'c', 'A', '\\', 'r', 'B']
      = (writeChar cfg { s with current_color := COLOR_BLUE } 'A').bind
          (fun s1 => writeChar cfg { s1 with current_color := COLOR_WHITE } 'B') := by
  refine ⟨fun rest => printChars_esc_c cfg s rest,
    fun rest => printChars_esc_r cfg s rest,
    fun d rest h1 h2 => printChars_esc_other cfg s d rest h1 h2,
    printChars_esc_last cfg s, ?_⟩
  rw [printChars_esc_c, printChars_step cfg _ 'A' _ (by decide)]
  cases hw1 : writeChar cfg { s with current_color := COLOR_BLUE } 'A' with
  | none => rfl
  | some s1 =>
    show printChars cfg s1 ['\\', 'r', 'B']
        = writeChar cfg { s1 with current_color := COLOR_WHITE } 'B'
    rw [printChars_esc_r, printChars_step cfg _ 'B' _ (by decide)]
    cases hw2 : writeChar cfg { s1 with current_color := COLOR_WHITE } 'B' <;> rfl

/-- Witness for `c5_escape_interp`, discharging the hypotheses of its
unknown-directive clause at a concrete input. -/
theorem c5_escape_interp_witness :
    (('x' : Char) ≠ 'c' ∧ ('x' : Char) ≠ 'r') ∧
    printChars cfgW7 sW7 ('\\' :: 'x' :: [])
      = (writeChar cfgW7 sW7 '\\').bind (fun s1 => printChars cfgW7 s1 []) :=
  ⟨⟨by decide, by decide⟩,
    (c5_escape_interp cfgW7 sW7).2.2.1 'x' [] (by decide) (by decide)⟩

lemma writeStr_cons (cfg : Config) (s : Writer) (c : Char) (rest : List Char) :
    writeStr cfg s (c :: rest)
      = (writeChar cfg s c).bind (fun s1 => writeStr cfg s1 rest) := by
  rw [writeStr.eq_def]
  dsimp only
  cases hwc : writeChar cfg s c <;> rfl

/-- C10: `Write::write_str` (the path behind the exported `print!` macro)
feeds every character — the backslash escape marker included — directly to
`write_char`: a backslash takes the ordinary glyph-rendering arm of
`write_char` (rendered as a literal glyph), no two-symbol sequence is
interpreted, and the color state is never changed on this path. -/
theorem c10_write_str_literal (cfg : Config) (s : Writer) :
    (∀ (c : Char) (rest : List Char), writeStr cfg s (c :: rest)
        = (writeChar cfg s c).bind (fun s1 => writeStr cfg s1 rest)) ∧
    writeChar cfg s '\\' = writeCharDefault cfg s '\\' ∧
    (∀ (t : Writer) (l : List Char) (t1 : Writer),
      writeStr cfg t l = some t1 → t1.current_color = t.current_color) := by
  refine ⟨fun c rest => writeStr_cons cfg s c rest,
    writeChar_default_eq cfg s '\\' (by decide) (by decide) (by decide), ?_⟩
  intro t l t1 hw
  exact writeStr_pres cfg (fun u => u.current_color = t.current_color)
    (fun u c u1 hwc hP => ((writeChar_fields cfg u c u1 hwc).1).trans hP)
    l t t1 hw rfl

/-- Witness for `c10_write_str_literal` at a concrete input: a backslash
through `write_str` renders a glyph and leaves the color unchanged. -/
theorem c10_write_str_literal_witness :
    writeStr cfgW7 sW7 ['\\'] = some sW7p ∧
    sW7p.current_color = sW7.current_color :=
  ⟨by decide,
    (c10_write_str_literal cfgW7 sW7).2.2 sW7 ['\\'] sW7p (by decide)⟩

lemma scaleChannel_eq (c i : Nat) (hc : c ≤ 255) (hi : i ≤ 255) :
    scaleChannel c i = c * i / 255 := by
  unfold scaleChannel
  apply Nat.mod_eq_of_lt
  have h1 : c * i ≤ 255 * 255 := Nat.mul_le_mul hc hi
  have h2 : c * i / 255 ≤ 255 * 255 / 255 := Nat.div_le_div_right h1
  omega

lemma blitRow_zero (cfg : Config) (y : Nat) :
    ∀ (row : List Nat) (x : Nat) (s : Writer), (∀ b ∈ row, b = 0) →
    blitRow cfg y x row s = some s := by
  intro row
  induction row with
  | nil => intro x s _; rfl
  | cons b rest ih =>
    intro x s hz
    have hb : b = 0 := hz b (List.mem_cons_self b rest)
    subst hb
    simp only [blitRow]
    rw [if_neg (by omega)]
    exact ih (x + 1) s (fun b2 hb2 => hz b2 (List.mem_cons_of_mem _ hb2))

lemma blitRows_zero (cfg : Config) :
    ∀ (rows : List (List Nat)) (y : Nat) (s : Writer),
    (∀ row ∈ rows, ∀ b ∈ row, b = 0) → blitRows cfg y rows s = some s := by
  intro rows
  induction rows with
  | nil => intro y s _; rfl
  | cons row rest ih =>
    intro y s hz
    simp only [blitRows]
    rw [blitRow_zero cfg y row 0 s (hz row (List.mem_cons_self row rest))]
    exact ih (y + 1) s (fun r hr => hz r (List.mem_cons_of_mem _ hr))

lemma writeRenderedChar_zero (cfg : Config) (s : Writer) (rc : RasterizedChar)
    (hz : ∀ row ∈ rc.raster, ∀ b ∈ row, b = 0) :
    writeRenderedChar cfg s rc
      = some { s with x_pos := s.x_pos + rc.width + LETTER_SPACING } := by
  unfold writeRenderedChar
  rw [blitRows_zero cfg rc.raster 0 s hz]
  rfl

/-- C2: a successful `write_pixel` writes, at the byte range
`[(y*stride+x)*bpp, (y*stride+x)*bpp + bpp)`, exactly the scaled color —
each active-color channel multiplied by `intensity` and divided by 255 in
exact integer arithmetic — truncated/packed to `bytes_per_pixel` bytes,
leaving every other byte and the cursor/color state unchanged; pixels with
zero intensity are skipped by the blit, leaving the framebuffer unchanged;
and every nonzero pixel of the raster is written at
`(x_pos + col, y_pos + row)`. -/
theorem c2_pixel_scaling (cfg : Config) (s : Writer) (x y i : Nat) (s1 : Writer)
    (hw : writePixel cfg s x y i = some s1)
    (hcr : s.current_color.r ≤ 255) (hcg : s.current_color.g ≤ 255)
    (hcb : s.current_color.b ≤ 255) (hi : i ≤ 255) :
    pixelColor s.current_color i
      = [s.current_color.r * i / 255, s.current_color.g * i / 255,
         s.current_color.b * i / 255] ∧
    s1.x_pos = s.x_pos ∧ s1.y_pos = s.y_pos ∧
    s1.current_color = s.current_color ∧
    s1.framebuffer.length = s.framebuffer.length ∧
    (∀ j, s1.framebuffer[j]? =
      if (y * cfg.info.stride + x) * cfg.info.bytes_per_pixel ≤ j ∧
          j < (y * cfg.info.stride + x) * cfg.info.bytes_per_pixel
            + cfg.info.bytes_per_pixel then
        ((pixelColor s.current_color i).take cfg.info.bytes_per_pixel)[j
          - (y * cfg.info.stride + x) * cfg.info.bytes_per_pixel]?
      else s.framebuffer[j]?) ∧
    (∀ (s2 : Writer) (rc : RasterizedChar),
      (∀ row ∈ rc.raster, ∀ b ∈ row, b = 0) →
      writeRenderedChar cfg s2 rc
        = some { s2 with x_pos := s2.x_pos + rc.width + LETTER_SPACING }) ∧
    (∀ (s2 : Writer) (yy xx b : Nat) (rest : List Nat), 0 < b →
      blitRow cfg yy xx (b :: rest) s2
        = (writePixel cfg s2 (s2.x_pos + xx) (s2.y_pos + yy) b).bind
            (fun s3 => blitRow cfg yy (xx + 1) rest s3)) := by
  obtain ⟨hin, hbpp, e1, e2, e3, e4⟩ := writePixel_some_elim cfg s x y i s1 hw
  obtain ⟨f1, f2, f3, f4⟩ := writePixel_fields cfg s x y i s1 hw
  refine ⟨?_, f1, f2, f3, f4, ?_, ?_, ?_⟩
  · unfold pixelColor
    rw [scaleChannel_eq _ _ hcr hi, scaleChannel_eq _ _ hcg hi,
      scaleChannel_eq _ _ hcb hi]
  · intro j
    rw [e4, writeBytes_getElem _ _ _
      (by rw [pixelColor_take_length _ _ _ hbpp]; exact hin)]
    rw [pixelColor_take_length _ _ _ hbpp]
  · exact fun s2 rc hz => writeRenderedChar_zero cfg s2 rc hz
  · intro s2 yy xx b rest hb
    simp only [blitRow]
    rw [if_pos hb]
    cases hwp : writePixel cfg s2 (s2.x_pos + xx) (s2.y_pos + yy) b <;> rfl

/-- The state after `writePixel cfgW7 sW7 1 1 7`: byte 6 holds the scaled
white channel `255*7/255 = 7`. -/
def sW2p : Writer :=
  { framebuffer := List.replicate 6 0 ++ 7 :: List.replicate 18 0,
    x_pos := 1, y_pos := 1, current_color := COLOR_WHITE }

/-- Witness for `c2_pixel_scaling` at a concrete input. -/
theorem c2_pixel_scaling_witness :
    (writePixel cfgW7 sW7 1 1 7 = some sW2p ∧
      sW7.current_color.r ≤ 255 ∧ sW7.current_color.g ≤ 255 ∧
      sW7.current_color.b ≤ 255 ∧ (7 : Nat) ≤ 255) ∧
    (pixelColor sW7.current_color 7
        = [sW7.current_color.r * 7 / 255, sW7.current_color.g * 7 / 255,
           sW7.current_color.b * 7 / 255] ∧
      sW2p.x_pos = sW7.x_pos ∧ sW2p.y_pos = sW7.y_pos ∧
      sW2p.current_color = sW7.current_color ∧
      sW2p.framebuffer.length = sW7.framebuffer.length ∧
      (∀ j, sW2p.framebuffer[j]? =
        if (1 * cfgW7.info.stride + 1) * cfgW7.info.bytes_per_pixel ≤ j ∧
            j < (1 * cfgW7.info.stride + 1) * cfgW7.info.bytes_per_pixel
              + cfgW7.info.bytes_per_pixel then
          ((pixelColor sW7.current_color 7).take cfgW7.info.bytes_per_pixel)[j
            - (1 * cfgW7.info.stride + 1) * cfgW7.info.bytes_per_pixel]?
        else sW7.framebuffer[j]?) ∧
      (∀ (s2 : Writer) (rc : RasterizedChar),
        (∀ row ∈ rc.raster, ∀ b ∈ row, b = 0) →
        writeRenderedChar cfgW7 s2 rc
          = some { s2 with x_pos := s2.x_pos + rc.width + LETTER_SPACING }) ∧
      (∀ (s2 : Writer) (yy xx b : Nat) (rest : List Nat), 0 < b →
        blitRow cfgW7 yy xx (b :: rest) s2
          = (writePixel cfgW7 s2 (s2.x_pos + xx) (s2.y_pos + yy) b).bind
              (fun s3 => blitRow cfgW7 yy (xx + 1) rest s3))) :=
  ⟨⟨by decide, by decide, by decide, by decide, by decide⟩,
    c2_pixel_scaling cfgW7 sW7 1 1 7 sW2p (by decide) (by decide) (by decide)
      (by decide) (by decide)⟩

end FBW
